import Mathlib

/-!
Verification development for the NuvioMobile player surface.

This file embeds, in Lean, the behaviorally relevant parts of:
  * `src/components/player/android/components/VideoSurface.tsx`
    (codec-error classification, the ExoPlayer/MPV error handlers and the
    per-engine event wiring of the rendered player elements);
  * `src/components/common/FocusablePressable.tsx`
    (both the `FocusablePressable` and the `FocusableTouchableOpacity`
    variants: focus/blur handlers, disabled fast path, animated focus ring);
  * `src/styles/tvFocus.ts` (the TV focus preset table).

JavaScript numbers carried through event payloads are modelled as `Rat`
(no arithmetic beyond pass-through and linear interpolation occurs).
Strings are modelled as Lean `String`; the JS `toLowerCase()` call is
modelled per-character (`Char.toLower`), which agrees with JS on the ASCII
text the patterns consist of.
-/

namespace NuvioModel

/-! ## Codec error patterns and the regex fragment they use

The pattern list in `VideoSurface.tsx` (lines 18-39) is compiled with
`new RegExp(pattern, 'i')` and run with `.test` on the lowercased error
string. The patterns use only literal characters, the single-character
wildcard `.` and the gap `.*`; we embed exactly that fragment. In
JavaScript, `.` matches any character except the line terminators
LF, CR, U+2028 and U+2029. -/

inductive Tok where
  | ch (c : Char)
  | dot
  | dotStar
deriving DecidableEq

/-- JS regex `.` semantics: any char except LF, CR, U+2028, U+2029. -/
def jsDotMatches (c : Char) : Bool :=
  !(c == '\n') && !(c == '\r') && !(c.toNat == 0x2028) && !(c.toNat == 0x2029)

/-- All suffixes of `l` reachable by `.*`: skip a (possibly empty) prefix of
characters each of which `.` may match. The head of the result is always `l`
itself (skip nothing). -/
def dotStarSkips : List Char → List (List Char)
  | [] => [[]]
  | x :: xs => (x :: xs) :: (if jsDotMatches x then dotStarSkips xs else [])

/-- `matchHere ts l = true` iff the token list `ts` matches some prefix of
`l` (i.e. a regex match exists starting at the first position of `l`).
For existence of a match this is equivalent to JS backtracking search. -/
def matchHere : List Tok → List Char → Bool
  | [], _ => true
  | Tok.ch c :: ts, x :: xs => x == c && matchHere ts xs
  | Tok.ch _ :: _, [] => false
  | Tok.dot :: ts, x :: xs => jsDotMatches x && matchHere ts xs
  | Tok.dot :: _, [] => false
  | Tok.dotStar :: ts, xs => (dotStarSkips xs).any (fun s => matchHere ts s)

/-- Unanchored search, as `RegExp.test` performs: a match may begin at any
position of the subject. -/
def searchToks (ts : List Tok) : List Char → Bool
  | [] => matchHere ts []
  | x :: xs => matchHere ts (x :: xs) || searchToks ts xs

/-- A pattern consisting only of literal characters. -/
def litToks (s : String) : List Tok := s.data.map Tok.ch

/-- The 20 patterns of `CODEC_ERROR_PATTERNS` (VideoSurface.tsx lines 18-39),
in source order; `.*` and the `.` in `format.no_decoder` are regex
metacharacters, everything else is literal. -/
def CODEC_ERROR_PATTERNS : List (List Tok) := [
  litToks ("exceeds_capabilities"),
  litToks ("no_exceeds_capabilities"),
  litToks ("decoder_exception"),
  litToks ("decoder") ++ [Tok.dotStar] ++ litToks ("error"),
  litToks ("codec") ++ [Tok.dotStar] ++ litToks ("error"),
  litToks ("unsupported") ++ [Tok.dotStar] ++ litToks ("codec"),
  litToks ("mediacodec") ++ [Tok.dotStar] ++ litToks ("exception"),
  litToks ("omx") ++ [Tok.dotStar] ++ litToks ("error"),
  litToks ("dolby") ++ [Tok.dotStar] ++ litToks ("vision"),
  litToks ("hevc") ++ [Tok.dotStar] ++ litToks ("error"),
  litToks ("no suitable decoder"),
  litToks ("decoder initialization failed"),
  litToks ("format") ++ [Tok.dot] ++ litToks ("no_decoder"),
  litToks ("no_decoder"),
  litToks ("decoding_failed"),
  litToks ("error_code_decoding"),
  litToks ("exoplaybackexception"),
  litToks ("mediacodecvideodecoder"),
  litToks ("mediacodecvideodecoderexception"),
  litToks ("decoder failed")]

/-- `errorString.toLowerCase()`, modelled per character. -/
def lowerChars (s : String) : List Char := s.data.map Char.toLower

/-- `isCodecError` (VideoSurface.tsx lines 95-101): lowercase the error
string, then test every pattern, OR-combined. -/
def isCodecError (errorString : String) : Bool :=
  CODEC_ERROR_PATTERNS.any (fun pattern => searchToks pattern (lowerChars errorString))

/-- A pattern matches somewhere inside the lowercased subject: there is a
start position from which `matchHere` succeeds. This is the formal reading
of "the string contains, in any character case, a match of the pattern". -/
def MatchesSomewhere (pattern : List Tok) (s : String) : Prop :=
  ∃ i, i ≤ (lowerChars s).length ∧ matchHere pattern ((lowerChars s).drop i) = true

/-! ## Error payload normalization (`handleExoError`, lines 222-267)

The handler probes a dynamically-typed payload along several paths and
collects the truthy findings into `errorParts`, in source order. We model
the payload as a record of optional fields; for string-valued fields a
JavaScript truthiness test succeeds exactly when the string is nonempty,
which the part-collection functions reproduce. -/

/-- `Array.prototype.join(' ')` / the `errorParts.join(' ')` call. -/
def joinParts : List String → String
  | [] => ""
  | [s] => s
  | s :: rest => s ++ " " ++ joinParts rest

structure ExoErrorPayload where
  /-- `error.error` when it is a string (`typeof error.error === 'string'`). -/
  errorAsString : Option String
  /-- `error.error.errorString`. -/
  errorStringField : Option String
  /-- `String(error.error.errorCode)`; present iff the raw `errorCode` was
  truthy (the truthiness test runs on the raw value, before stringification). -/
  errorCodeField : Option String
  /-- the payload itself when it is a string (`typeof error === 'string'`). -/
  payloadAsString : Option String
  /-- `error.nativeStackAndroid` (an array; truthy whenever present). -/
  nativeStackAndroid : Option (List String)
  /-- `error.message`. -/
  message : Option String
  /-- `JSON.stringify(error)`, the fallback when no part was collected. -/
  stringified : String

/-- A string field contributes a part iff present and truthy (nonempty). -/
def truthyPart (o : Option String) : List String :=
  match o with
  | none => []
  | some s => if s = "" then [] else [s]

/-- The `errorParts` array after all six `if` blocks (lines 229-246),
in source push order. -/
def errorParts (e : ExoErrorPayload) : List String :=
  truthyPart e.errorAsString ++ truthyPart e.errorStringField ++
    e.errorCodeField.toList ++ truthyPart e.payloadAsString ++
    (e.nativeStackAndroid.map joinParts).toList ++ truthyPart e.message

/-- `errorString = errorParts.length > 0 ? errorParts.join(' ') : JSON.stringify(error)`
(line 249). -/
def normalizedErrorString (e : ExoErrorPayload) : String :=
  if errorParts e = [] then e.stringified else joinParts (errorParts e)

/-- The externally observable calls a surface error handler makes:
whether `onCodecError` was invoked, and the `errorString` passed to
`onError` if `onError` was invoked. -/
structure SurfaceCalls where
  calledOnCodecError : Bool
  onErrorArg : Option String
deriving DecidableEq

/-- `handleExoError` (lines 222-267): classify the normalized string; a
codec error triggers `onCodecError` and returns without calling `onError`;
anything else is propagated through `onError`. -/
def handleExoError (e : ExoErrorPayload) : SurfaceCalls :=
  let s := normalizedErrorString e
  if isCodecError s then
    { calledOnCodecError := true, onErrorArg := none }
  else
    { calledOnCodecError := false, onErrorArg := some s }

/-- `handleMpvError` (lines 167-174): always forwards
`{error: {errorString: error.error}}` to `onError`; never consults the
classifier and never calls `onCodecError`. -/
def handleMpvError (err : String) : SurfaceCalls :=
  { calledOnCodecError := false, onErrorArg := some err }

/-! ## Engine session model (dual-engine fallback) -/

inductive Engine where
  | exo
  | mpv
deriving DecidableEq

/-- An error event as delivered by the engine that produced it. -/
inductive ErrorEvent where
  | fromExo (e : ExoErrorPayload)
  | fromMpv (err : String)

/-- Modelled from the spec: the component owning the surface is not under
`src/`; per spec §4.4 it reacts to the surface's `onCodecError` by flipping
`EngineSelection` to the MPV fallback (`useExoPlayer := false`) and never
flips back while the stream is loaded. The per-engine error behavior is
taken from `handleExoError` and `handleMpvError` (both in `src/`); an event
from an engine that is not mounted is a no-op. -/
def sessionStep (engine : Engine) (ev : ErrorEvent) : Engine × SurfaceCalls :=
  match engine, ev with
  | Engine.exo, ErrorEvent.fromExo e =>
      let c := handleExoError e
      (if c.calledOnCodecError then Engine.mpv else Engine.exo, c)
  | Engine.exo, ErrorEvent.fromMpv _ =>
      (Engine.exo, { calledOnCodecError := false, onErrorArg := none })
  | Engine.mpv, ErrorEvent.fromMpv err => (Engine.mpv, handleMpvError err)
  | Engine.mpv, ErrorEvent.fromExo _ =>
      (Engine.mpv, { calledOnCodecError := false, onErrorArg := none })

/-- Number of primary-to-fallback transitions along a trace of error
events. -/
def countFallbacks : Engine → List ErrorEvent → Nat
  | _, [] => 0
  | engine, ev :: rest =>
      let r := sessionStep engine ev
      (if engine = Engine.exo ∧ r.1 = Engine.mpv then 1 else 0) + countFallbacks r.1 rest

/-! ## Non-error event normalization and per-engine wiring -/

inductive EventKind where
  | load
  | progress
  | seek
  | ended
  | buffer
deriving DecidableEq

/-- Which non-error callbacks the surface wires on the active engine's
element. The ExoPlayer `<Video>` element (lines 485-490) receives
`onLoad/onProgress/onEnd/onError/onBuffer/onSeek`; the `<MpvPlayer>`
element (lines 525-528) receives only `onLoad/onProgress/onEnd/onError` —
no `onSeek`, no `onBuffer`. -/
def engineWires : Engine → EventKind → Bool
  | Engine.exo, _ => true
  | Engine.mpv, EventKind.load => true
  | Engine.mpv, EventKind.progress => true
  | Engine.mpv, EventKind.ended => true
  | Engine.mpv, EventKind.seek => false
  | Engine.mpv, EventKind.buffer => false

/-- Normalized `onLoad` shape: `{duration, naturalSize: {width, height}}`. -/
structure LoadOut where
  duration : ℚ
  naturalWidth : ℚ
  naturalHeight : ℚ
deriving DecidableEq

/-- Normalized `onProgress` shape: `{currentTime, playableDuration}`. -/
structure ProgressOut where
  currentTime : ℚ
  playableDuration : ℚ
deriving DecidableEq

/-- Normalized `onSeek` shape: `{currentTime}`. -/
structure SeekOut where
  currentTime : ℚ
deriving DecidableEq

/-- Normalized `onBuffer` shape: `{isBuffering}`. -/
structure BufferOut where
  isBuffering : Bool
deriving DecidableEq

structure MpvLoadData where
  duration : ℚ
  width : ℚ
  height : ℚ

structure MpvProgressData where
  currentTime : ℚ
  duration : ℚ

/-- `handleMpvLoad` (lines 149-158). -/
def handleMpvLoad (d : MpvLoadData) : LoadOut :=
  { duration := d.duration, naturalWidth := d.width, naturalHeight := d.height }

/-- `handleMpvProgress` (lines 160-165): forwards the current time as both
`currentTime` and `playableDuration`. -/
def handleMpvProgress (d : MpvProgressData) : ProgressOut :=
  { currentTime := d.currentTime, playableDuration := d.currentTime }

/-- `handleMpvEnd` (lines 176-179): unconditionally calls `onEnd` (returns
whether `onEnd` is invoked). -/
def handleMpvEnd : Bool := true

structure Size where
  width : ℚ
  height : ℚ

structure ExoLoadData where
  duration : ℚ
  /-- `data.naturalSize`; `undefined` falls back to 1920x1080. -/
  naturalSize : Option Size

/-- `handleExoLoad` (lines 182-213), restricted to the normalized `onLoad`
fields; the handler additionally forwards raw track lists to
`onTracksChanged` and as extra `onLoad` fields, which no claim concerns. -/
def handleExoLoad (d : ExoLoadData) : LoadOut :=
  let sz := d.naturalSize.getD { width := 1920, height := 1080 }
  { duration := d.duration, naturalWidth := sz.width, naturalHeight := sz.height }

structure ExoProgressData where
  currentTime : ℚ
  /-- `data.playableDuration`; `none` models `undefined`. -/
  playableDuration : Option ℚ

/-- JS `x || y` on a number `x`: falls through when `x` is absent or `0`. -/
def jsNumOr (x : Option ℚ) (y : ℚ) : ℚ :=
  match x with
  | none => y
  | some v => if v = 0 then y else v

/-- `handleExoProgress` (lines 215-220). -/
def handleExoProgress (d : ExoProgressData) : ProgressOut :=
  { currentTime := d.currentTime, playableDuration := jsNumOr d.playableDuration d.currentTime }

/-- `handleExoSeek` (lines 278-280). -/
def handleExoSeek (currentTime : ℚ) : SeekOut :=
  { currentTime := currentTime }

/-- `handleExoBuffer` (lines 269-271). -/
def handleExoBuffer (isBuffering : Bool) : BufferOut :=
  { isBuffering := isBuffering }

/-- `handleExoEnd` (lines 273-276): unconditionally calls `onEnd`. -/
def handleExoEnd : Bool := true

/-! ## TV focus presets (`src/styles/tvFocus.ts`) -/

inductive TVFocusPresetName where
  | card
  | poster
  | pill
  | button
  | icon
  | listRow
deriving DecidableEq

structure TVFocusPreset where
  focusScale : ℚ
  focusRingWidth : ℚ
  focusBorderRadius : ℚ
deriving DecidableEq

/-- `tvFocusPresets` (tvFocus.ts lines 13-20). -/
def tvFocusPresets : TVFocusPresetName → TVFocusPreset
  | TVFocusPresetName.card => { focusScale := 1.05, focusRingWidth := 3, focusBorderRadius := 16 }
  | TVFocusPresetName.poster => { focusScale := 1.06, focusRingWidth := 3, focusBorderRadius := 12 }
  | TVFocusPresetName.pill => { focusScale := 1.04, focusRingWidth := 3, focusBorderRadius := 999 }
  | TVFocusPresetName.button => { focusScale := 1.04, focusRingWidth := 3, focusBorderRadius := 18 }
  | TVFocusPresetName.icon => { focusScale := 1.06, focusRingWidth := 3, focusBorderRadius := 999 }
  | TVFocusPresetName.listRow => { focusScale := 1.03, focusRingWidth := 3, focusBorderRadius := 14 }

/-- `resolvedScale = focusScale ?? resolvedPreset?.focusScale ?? 1.06`
(FocusablePressable.tsx line 46; identical in both component variants). -/
def resolvedScale (preset : Option TVFocusPresetName) (focusScale : Option ℚ) : ℚ :=
  focusScale.getD ((preset.map (fun p => (tvFocusPresets p).focusScale)).getD 1.06)

/-- `resolvedRingWidth = focusRingWidth ?? resolvedPreset?.focusRingWidth ?? 3`
(line 47). -/
def resolvedRingWidth (preset : Option TVFocusPresetName) (focusRingWidth : Option ℚ) : ℚ :=
  focusRingWidth.getD ((preset.map (fun p => (tvFocusPresets p).focusRingWidth)).getD 3)

/-- `resolvedBorderRadius = focusBorderRadius ?? resolvedPreset?.focusBorderRadius ?? 12`
(line 45). -/
def resolvedBorderRadius (preset : Option TVFocusPresetName) (focusBorderRadius : Option ℚ) : ℚ :=
  focusBorderRadius.getD ((preset.map (fun p => (tvFocusPresets p).focusBorderRadius)).getD 12)

/-! ## Focus interaction controller
(`FocusablePressable.tsx`, both component variants; the handler bodies at
lines 61-75 and 246-260 are identical)

The `Animated.Value` is modelled as a current value plus a target;
`Animated.timing(...).start()` retargets the in-flight animation toward the
new endpoint from the current value (no restart from 0), and completion
drives the value to the target. -/

structure AnimState where
  value : ℚ
  target : ℚ
deriving DecidableEq

/-- `animateTo` (lines 52-59): start a timing animation of `focusProgress`
toward `toValue`; the current value is retained as the starting point. -/
def animateTo (a : AnimState) (toValue : ℚ) : AnimState :=
  { value := a.value, target := toValue }

/-- The transition completing: the animated value reaches its target. -/
def completeAnim (a : AnimState) : AnimState :=
  { value := a.target, target := a.target }

/-- What a focus/blur handler does, beyond invoking the caller callback:
the `setIsFocused` argument if called, and the `animateTo` target if
called. The caller-supplied callback is always invoked. -/
structure FocusHandlerEffect where
  setIsFocusedArg : Option Bool
  animTarget : Option ℚ
  callsCallerCallback : Bool
deriving DecidableEq

/-- `handleFocus` (lines 61-67): when `enableTVFocus`, set focused state and
animate to 1; always pass the event through to the caller's `onFocus`. -/
def handleFocus (enableTVFocus : Bool) : FocusHandlerEffect :=
  if enableTVFocus then
    { setIsFocusedArg := some true, animTarget := some 1, callsCallerCallback := true }
  else
    { setIsFocusedArg := none, animTarget := none, callsCallerCallback := true }

/-- `handleBlur` (lines 69-75). -/
def handleBlur (enableTVFocus : Bool) : FocusHandlerEffect :=
  if enableTVFocus then
    { setIsFocusedArg := some false, animTarget := some 0, callsCallerCallback := true }
  else
    { setIsFocusedArg := none, animTarget := none, callsCallerCallback := true }

/-- Per-control focus state: the `isFocused` React state plus the animated
progress value. -/
structure CtrlState where
  isFocused : Bool
  anim : AnimState
deriving DecidableEq

def applyEffect (st : CtrlState) (e : FocusHandlerEffect) : CtrlState :=
  { isFocused := e.setIsFocusedArg.getD st.isFocused,
    anim := match e.animTarget with
            | some t => animateTo st.anim t
            | none => st.anim }

def receiveFocus (enableTVFocus : Bool) (st : CtrlState) : CtrlState :=
  applyEffect st (handleFocus enableTVFocus)

def receiveBlur (enableTVFocus : Bool) (st : CtrlState) : CtrlState :=
  applyEffect st (handleBlur enableTVFocus)

/-! ## Rendered focus visuals -/

/-- The focus-related visual overrides present in a component's rendered
output: a scale transform on the wrapper, the focus-ring overlay element,
and the focus shadow/elevation style. -/
structure FocusVisualRender where
  hasScaleTransform : Bool
  hasFocusRing : Bool
  hasFocusShadow : Bool
deriving DecidableEq

/-- `FocusablePressable` render (lines 77-160): `containerAnimatedStyle` and
the ring overlay exist iff `enableTVFocus`; the shadow style applies iff
`isFocused && enableTVFocus` (line 111). -/
def renderFocusablePressable (enableTVFocus isFocused : Bool) : FocusVisualRender :=
  { hasScaleTransform := enableTVFocus,
    hasFocusRing := enableTVFocus,
    hasFocusShadow := isFocused && enableTVFocus }

/-- `FocusableTouchableOpacity` render (lines 294-351): with
`enableTVFocus = false` the early return at lines 294-300 yields a plain
`TouchableOpacity` with no wrapper, transform, ring or shadow; otherwise the
wrapped render mirrors `FocusablePressable`. -/
def renderFocusableTouchableOpacity (enableTVFocus isFocused : Bool) : FocusVisualRender :=
  if enableTVFocus then
    { hasScaleTransform := true, hasFocusRing := true, hasFocusShadow := isFocused }
  else
    { hasScaleTransform := false, hasFocusRing := false, hasFocusShadow := false }

/-- `focusProgress.interpolate` with `inputRange [0, 1]` and
`outputRange [1, scale]` (lines 82-85): linear interpolation. -/
def interpolateScale (scale p : ℚ) : ℚ := 1 + p * (scale - 1)


/-! ### Correctness of the unanchored search -/

theorem searchToks_iff (ts : List Tok) (l : List Char) :
    searchToks ts l = true ↔ ∃ i, i ≤ l.length ∧ matchHere ts (l.drop i) = true := by
  induction l with
  | nil =>
      constructor
      · intro h
        exact ⟨0, Nat.le_refl 0, h⟩
      · rintro ⟨i, hi, hm⟩
        simpa [searchToks] using hm
  | cons x xs ih =>
      simp only [searchToks, Bool.or_eq_true]
      constructor
      · rintro (h | h)
        · exact ⟨0, Nat.zero_le _, h⟩
        · obtain ⟨i, hi, hm⟩ := ih.mp h
          exact ⟨i + 1, Nat.succ_le_succ hi, hm⟩
      · rintro ⟨i, hi, hm⟩
        cases i with
        | zero => exact Or.inl hm
        | succ i =>
            exact Or.inr (ih.mpr ⟨i, Nat.le_of_succ_le_succ hi, hm⟩)

theorem self_mem_dotStarSkips (l : List Char) : l ∈ dotStarSkips l := by
  cases l <;> simp [dotStarSkips]

theorem dotStarSkips_append (l : List Char) :
    ∀ r s : List Char, s ∈ dotStarSkips l → s ++ r ∈ dotStarSkips (l ++ r) := by
  induction l with
  | nil =>
      intro r s hs
      simp only [dotStarSkips, List.mem_singleton] at hs
      subst hs
      simpa using self_mem_dotStarSkips r
  | cons x xs ih =>
      intro r s hs
      simp only [dotStarSkips, List.mem_cons] at hs
      rcases hs with rfl | hs
      · simp [dotStarSkips]
      · by_cases hx : jsDotMatches x
        · simp only [hx, if_true] at hs
          simp only [List.cons_append, dotStarSkips, hx, if_true, List.mem_cons]
          exact Or.inr (ih r s hs)
        · simp [hx] at hs

/-- A match of `ts` against (a prefix of) `l` survives appending more
characters on the right. -/
theorem matchHere_append (ts : List Tok) :
    ∀ l r : List Char, matchHere ts l = true → matchHere ts (l ++ r) = true := by
  induction ts with
  | nil =>
      intro l r _
      simp [matchHere]
  | cons t ts ih =>
      intro l r h
      cases t with
      | ch c =>
          cases l with
          | nil => simp [matchHere] at h
          | cons x xs =>
              simp only [matchHere, Bool.and_eq_true] at h
              simp only [List.cons_append, matchHere, Bool.and_eq_true]
              exact ⟨h.1, ih xs r h.2⟩
      | dot =>
          cases l with
          | nil => simp [matchHere] at h
          | cons x xs =>
              simp only [matchHere, Bool.and_eq_true] at h
              simp only [List.cons_append, matchHere, Bool.and_eq_true]
              exact ⟨h.1, ih xs r h.2⟩
      | dotStar =>
          simp only [matchHere, List.any_eq_true] at h ⊢
          obtain ⟨s, hs, hm⟩ := h
          exact ⟨s ++ r, dotStarSkips_append l r s hs, ih s r hm⟩

theorem searchToks_of_matchHere (ts : List Tok) (l : List Char)
    (h : matchHere ts l = true) : searchToks ts l = true := by
  cases l with
  | nil => simpa [searchToks] using h
  | cons x xs => simp [searchToks, h]

theorem searchToks_append_right (ts : List Tok) :
    ∀ l r : List Char, searchToks ts l = true → searchToks ts (l ++ r) = true := by
  intro l
  induction l with
  | nil =>
      intro r h
      simp only [searchToks] at h
      simpa using searchToks_of_matchHere ts r (by simpa using matchHere_append ts [] r h)
  | cons x xs ih =>
      intro r h
      simp only [searchToks, Bool.or_eq_true] at h ⊢
      rcases h with h | h
      · exact Or.inl (by simpa using matchHere_append ts (x :: xs) r h)
      · exact Or.inr (ih r h)

theorem searchToks_append_left (ts : List Tok) :
    ∀ a l : List Char, searchToks ts l = true → searchToks ts (a ++ l) = true := by
  intro a
  induction a with
  | nil => intro l h; simpa using h
  | cons x xs ih =>
      intro l h
      simp only [List.cons_append, searchToks, Bool.or_eq_true]
      exact Or.inr (ih l h)

/-- A successful search inside `l` stays successful inside any extension
`a ++ l ++ b`. -/
theorem searchToks_infix (ts : List Tok) (a l b : List Char)
    (h : searchToks ts l = true) : searchToks ts (a ++ l ++ b) = true := by
  rw [List.append_assoc]
  exact searchToks_append_left ts a (l ++ b) (searchToks_append_right ts l b h)

/-! ## Claim theorems -/

/-- C1: with the ExoPlayer engine active, `handleExoError` calls
`onCodecError` (and not `onError`) exactly when the normalized error string
classifies as a codec error, and otherwise calls `onError` with the
normalized string (and not `onCodecError`); in particular the payload
`{error: {errorCode: "MediaCodecVideoDecoderException"}}` triggers
`onCodecError` and suppresses `onError`. -/
theorem claim_C1_exo_error_classification :
    (∀ e : ExoErrorPayload,
        (handleExoError e).calledOnCodecError = isCodecError (normalizedErrorString e) ∧
        (handleExoError e).onErrorArg =
          (if isCodecError (normalizedErrorString e) then none
           else some (normalizedErrorString e))) ∧
    handleExoError
      { errorAsString := none, errorStringField := none,
        errorCodeField := some ("MediaCodecVideoDecoderException"),
        payloadAsString := none, nativeStackAndroid := none, message := none,
        stringified :=
          "\x7b\"error\":\x7b\"errorCode\":\"MediaCodecVideoDecoderException\"\x7d\x7d" } =
      { calledOnCodecError := true, onErrorArg := none } := by
  constructor
  · intro e
    by_cases h : isCodecError (normalizedErrorString e) = true
    · simp [handleExoError, h]
    · simp [handleExoError, h]
  · decide

/-- C2: in any playback session, at most one primary-to-fallback engine
transition occurs; once the MPV fallback engine is active, a further
codec-classified error does not trigger another fallback and is surfaced to
the caller through `onError` as an ordinary error. -/
theorem claim_C2_single_fallback_per_session :
    (∀ evs : List ErrorEvent, countFallbacks Engine.exo evs ≤ 1) ∧
    (∀ s : String, isCodecError s = true →
        sessionStep Engine.mpv (ErrorEvent.fromMpv s) =
          (Engine.mpv, { calledOnCodecError := false, onErrorArg := some s })) := by
  have hmpvStep : ∀ ev : ErrorEvent, (sessionStep Engine.mpv ev).1 = Engine.mpv := by
    intro ev
    cases ev <;> rfl
  have hmpvCount : ∀ evs : List ErrorEvent, countFallbacks Engine.mpv evs = 0 := by
    intro evs
    induction evs with
    | nil => rfl
    | cons ev rest ih =>
        simp only [countFallbacks, hmpvStep ev, ih]
        simp
  constructor
  · intro evs
    induction evs with
    | nil => exact Nat.zero_le 1
    | cons ev rest ih =>
        cases ev with
        | fromMpv err =>
            simpa [countFallbacks, sessionStep] using ih
        | fromExo e =>
            by_cases hc : (handleExoError e).calledOnCodecError = true
            · simp [countFallbacks, sessionStep, hc, hmpvCount rest]
            · simp only [Bool.not_eq_true] at hc
              simpa [countFallbacks, sessionStep, hc] using ih
  · intro s _
    rfl

/-- C2 witness: a concrete codec-classified error arriving while the MPV
fallback engine is active is forwarded via `onError` without a further
fallback. -/
theorem claim_C2_witness :
    isCodecError ("decoder_exception") = true ∧
    sessionStep Engine.mpv (ErrorEvent.fromMpv ("decoder_exception")) =
      (Engine.mpv,
        { calledOnCodecError := false, onErrorArg := some ("decoder_exception") }) :=
  ⟨by decide, claim_C2_single_fallback_per_session.2 ("decoder_exception") (by decide)⟩

/-- C3: whenever one of the 20 codec-error patterns matches anywhere inside
the (case-normalized) error string, `isCodecError` returns `true`. -/
theorem claim_C3_patterns_imply_codec (s : String) (p : List Tok)
    (hp : p ∈ CODEC_ERROR_PATTERNS) (hm : MatchesSomewhere p s) :
    isCodecError s = true := by
  have hs : searchToks p (lowerChars s) = true :=
    (searchToks_iff p (lowerChars s)).mpr hm
  exact List.any_eq_true.mpr ⟨p, hp, hs⟩

/-- C3 witness: the pattern `mediacodecvideodecoder` matches inside
`"Prefix MediaCodecVideoDecoderException"` (starting at position 7 of the
lowercased string), so `isCodecError` returns `true` on it. -/
theorem claim_C3_witness :
    litToks ("mediacodecvideodecoder") ∈ CODEC_ERROR_PATTERNS ∧
    MatchesSomewhere (litToks ("mediacodecvideodecoder"))
      ("Prefix MediaCodecVideoDecoderException") ∧
    isCodecError ("Prefix MediaCodecVideoDecoderException") = true := by
  refine ⟨by decide, ⟨7, by decide, by decide⟩, ?_⟩
  exact claim_C3_patterns_imply_codec ("Prefix MediaCodecVideoDecoderException")
    (litToks ("mediacodecvideodecoder")) (by decide) ⟨7, by decide, by decide⟩

/-- C4: when no codec-error pattern matches anywhere inside the
(case-normalized) error string, `isCodecError` returns `false`; as a total
Lean function over arbitrary strings the classifier cannot fail. -/
theorem claim_C4_no_pattern_means_other (s : String)
    (h : ∀ p ∈ CODEC_ERROR_PATTERNS, ¬ MatchesSomewhere p s) :
    isCodecError s = false := by
  cases hb : isCodecError s with
  | false => rfl
  | true =>
      obtain ⟨p, hp, hs⟩ := List.any_eq_true.mp hb
      exact absurd ((searchToks_iff p (lowerChars s)).mp hs) (h p hp)

/-- C4 witness: the empty string matches no pattern and classifies as
`otherError`. -/
theorem claim_C4_witness :
    (∀ p ∈ CODEC_ERROR_PATTERNS, ¬ MatchesSomewhere p ("")) ∧
    isCodecError ("") = false := by
  have hall : ∀ p ∈ CODEC_ERROR_PATTERNS, ¬ MatchesSomewhere p ("") := by
    intro p hp hm
    have hs : searchToks p (lowerChars ("")) = true :=
      (searchToks_iff p (lowerChars (""))).mpr hm
    have hf : CODEC_ERROR_PATTERNS.all
        (fun q => !searchToks q (lowerChars (""))) = true := by decide
    have hq := List.all_eq_true.mp hf p hp
    simp [hs] at hq
  exact ⟨hall, claim_C4_no_pattern_means_other ("") hall⟩

/-! ### Helpers for C5 -/

theorem joinParts_decomp (p : String) :
    ∀ l : List String, p ∈ l → ∃ a b : List Char, (joinParts l).data = a ++ p.data ++ b := by
  intro l
  induction l with
  | nil => intro hmem; cases hmem
  | cons s rest ih =>
      intro hmem
      rcases List.mem_cons.mp hmem with rfl | hmem'
      · cases rest with
        | nil => exact ⟨[], [], by simp [joinParts]⟩
        | cons t ts =>
            refine ⟨[], (" " ++ joinParts (t :: ts)).data, ?_⟩
            simp [joinParts, String.data_append]
      · cases rest with
        | nil => cases hmem'
        | cons t ts =>
            obtain ⟨a, b, hab⟩ := ih hmem'
            refine ⟨(s ++ " ").data ++ a, b, ?_⟩
            simp [joinParts, String.data_append, hab]

theorem isCodecError_joinParts_of_mem (l : List String) (p : String)
    (hmem : p ∈ l) (hp : isCodecError p = true) :
    isCodecError (joinParts l) = true := by
  obtain ⟨pat, hpat, hs⟩ := List.any_eq_true.mp hp
  obtain ⟨a, b, hab⟩ := joinParts_decomp p l hmem
  have hlow : lowerChars (joinParts l) =
      a.map Char.toLower ++ lowerChars p ++ b.map Char.toLower := by
    simp [lowerChars, hab]
  have hsearch : searchToks pat (lowerChars (joinParts l)) = true := by
    rw [hlow]
    exact searchToks_infix pat _ _ _ hs
  exact List.any_eq_true.mpr ⟨pat, hpat, hsearch⟩

/-- C5 counterexample: classification is NOT independent of the
concatenation order of error parts. The parts `["decoder", "error"]`
space-join to `"decoder error"`, which the gap pattern `decoder.*error`
classifies as a codec error; the permuted join `"error decoder"` matches no
pattern and classifies as `otherError`. -/
theorem claim_C5_counterexample :
    List.Perm [("decoder" : String), "error"] ["error", "decoder"] ∧
    isCodecError (joinParts [("decoder" : String), "error"]) = true ∧
    isCodecError (joinParts [("error" : String), "decoder"]) = false := by
  refine ⟨List.Perm.swap ("error") ("decoder") [], by decide, by decide⟩

/-- C5 amended: order-independence holds whenever some single extracted
part already classifies as a codec error on its own: then the space-joined
concatenation of every permutation of the parts classifies as a codec
error. (Order can matter only for matches of gap patterns that span part
boundaries, as the counterexample shows.) -/
theorem claim_C5_single_part_order_independent (l₁ l₂ : List String) (p : String)
    (hperm : l₁.Perm l₂) (hmem : p ∈ l₁) (hp : isCodecError p = true) :
    isCodecError (joinParts l₁) = true ∧ isCodecError (joinParts l₂) = true :=
  ⟨isCodecError_joinParts_of_mem l₁ p hmem hp,
   isCodecError_joinParts_of_mem l₂ p (hperm.mem_iff.mp hmem) hp⟩

/-- C5 witness: the part `"decoder_exception"` classifies as codec on its
own, so both orderings of the parts `["decoder_exception", "x"]` produce a
codec-classified join. -/
theorem claim_C5_witness :
    List.Perm [("decoder_exception" : String), "x"] ["x", "decoder_exception"] ∧
    ("decoder_exception" : String) ∈ [("decoder_exception" : String), "x"] ∧
    isCodecError ("decoder_exception") = true ∧
    (isCodecError (joinParts [("decoder_exception" : String), "x"]) = true ∧
     isCodecError (joinParts [("x" : String), "decoder_exception"]) = true) := by
  have hperm : List.Perm [("decoder_exception" : String), "x"] ["x", "decoder_exception"] :=
    List.Perm.swap ("x") ("decoder_exception") []
  refine ⟨hperm, List.mem_cons_self _ _, by decide, ?_⟩
  exact claim_C5_single_part_order_independent _ _ ("decoder_exception") hperm
    (List.mem_cons_self _ _) (by decide)

/-- C6 counterexample: while the MPV fallback engine is active, the surface
wires no `onSeek` and no `onBuffer` handler on the player element, so seek
and buffer events of the active engine are not forwarded to the caller. -/
theorem claim_C6_counterexample :
    engineWires Engine.mpv EventKind.seek = false ∧
    engineWires Engine.mpv EventKind.buffer = false := by
  exact ⟨rfl, rfl⟩

/-- C6 amended: `onLoad`, `onProgress` and `onEnd` events are normalized to
the common §6 shapes and forwarded from either engine; `onSeek` and
`onBuffer` are wired — and hence forwarded, with their normalized shapes —
only while the ExoPlayer engine is active. -/
theorem claim_C6_event_normalization_and_wiring :
    (∀ k, engineWires Engine.exo k = true) ∧
    (engineWires Engine.mpv EventKind.load = true ∧
     engineWires Engine.mpv EventKind.progress = true ∧
     engineWires Engine.mpv EventKind.ended = true) ∧
    (engineWires Engine.mpv EventKind.seek = false ∧
     engineWires Engine.mpv EventKind.buffer = false) ∧
    (∀ d, handleMpvLoad d =
        { duration := d.duration, naturalWidth := d.width, naturalHeight := d.height }) ∧
    (∀ d, handleMpvProgress d =
        { currentTime := d.currentTime, playableDuration := d.currentTime }) ∧
    handleMpvEnd = true ∧
    (∀ d, (handleExoLoad d).duration = d.duration) ∧
    (∀ d h, handleExoLoad { duration := d, naturalSize := none } =
        { duration := d, naturalWidth := 1920, naturalHeight := 1080 } ∧
      handleExoLoad { duration := d, naturalSize := some h } =
        { duration := d, naturalWidth := h.width, naturalHeight := h.height }) ∧
    (∀ d, (handleExoProgress d).currentTime = d.currentTime) ∧
    (∀ t, handleExoSeek t = { currentTime := t }) ∧
    (∀ b, handleExoBuffer b = { isBuffering := b }) ∧
    handleExoEnd = true := by
  refine ⟨fun k => by cases k <;> rfl, ⟨rfl, rfl, rfl⟩, ⟨rfl, rfl⟩,
    fun d => rfl, fun d => rfl, rfl, fun d => rfl, fun d h => ⟨rfl, rfl⟩,
    fun d => rfl, fun t => rfl, fun b => rfl, rfl⟩

/-- C7: with `enableTVFocus` disabled, neither component variant ever
renders a scale transform, a focus-ring overlay or a focus shadow, and a
focus or blur event performs no state update and starts no animation — its
only effect is invoking the caller-supplied `onFocus`/`onBlur` callback. -/
theorem claim_C7_disabled_focus_is_passthrough :
    (∀ f, renderFocusableTouchableOpacity false f =
        { hasScaleTransform := false, hasFocusRing := false, hasFocusShadow := false }) ∧
    (∀ f, renderFocusablePressable false f =
        { hasScaleTransform := false, hasFocusRing := false, hasFocusShadow := false }) ∧
    handleFocus false =
      { setIsFocusedArg := none, animTarget := none, callsCallerCallback := true } ∧
    handleBlur false =
      { setIsFocusedArg := none, animTarget := none, callsCallerCallback := true } ∧
    (∀ st, receiveFocus false st = st ∧ receiveBlur false st = st) := by
  refine ⟨fun f => rfl, fun f => by cases f <;> rfl, rfl, rfl, fun st => ⟨rfl, rfl⟩⟩

/-- C8: on a focus-enabled control, `receiveFocus` immediately followed by
`receiveBlur` — before the 140ms transition completes, i.e. from an
arbitrary in-flight animation value — leaves the controller unfocused with
the animation targeting progress 0; the interrupted animation retargets
from its current value (no restart), and on completion the progress is
exactly 0, never an intermediate value. -/
theorem claim_C8_focus_blur_settles_unfocused (st : CtrlState) :
    (receiveBlur true (receiveFocus true st)).isFocused = false ∧
    (receiveBlur true (receiveFocus true st)).anim.target = 0 ∧
    (receiveBlur true (receiveFocus true st)).anim.value = st.anim.value ∧
    (completeAnim (receiveBlur true (receiveFocus true st)).anim).value = 0 :=
  ⟨rfl, rfl, rfl, rfl⟩

/-- C9: the focus preset table holds exactly the literal values
card 1.05/3/16, poster 1.06/3/12, pill 1.04/3/999, button 1.04/3/18,
icon 1.06/3/999, listRow 1.03/3/14, and a control supplying neither a
preset nor an override resolves to scale 1.06, ring width 3, border
radius 12. -/
theorem claim_C9_preset_table_and_defaults :
    tvFocusPresets TVFocusPresetName.card =
      { focusScale := 1.05, focusRingWidth := 3, focusBorderRadius := 16 } ∧
    tvFocusPresets TVFocusPresetName.poster =
      { focusScale := 1.06, focusRingWidth := 3, focusBorderRadius := 12 } ∧
    tvFocusPresets TVFocusPresetName.pill =
      { focusScale := 1.04, focusRingWidth := 3, focusBorderRadius := 999 } ∧
    tvFocusPresets TVFocusPresetName.button =
      { focusScale := 1.04, focusRingWidth := 3, focusBorderRadius := 18 } ∧
    tvFocusPresets TVFocusPresetName.icon =
      { focusScale := 1.06, focusRingWidth := 3, focusBorderRadius := 999 } ∧
    tvFocusPresets TVFocusPresetName.listRow =
      { focusScale := 1.03, focusRingWidth := 3, focusBorderRadius := 14 } ∧
    resolvedScale none none = 1.06 ∧
    resolvedRingWidth none none = 3 ∧
    resolvedBorderRadius none none = 12 :=
  ⟨rfl, rfl, rfl, rfl, rfl, rfl, rfl, rfl, rfl⟩

/-- C10: while the MPV fallback engine is active, every forwarded
`onProgress` event reports `playableDuration` equal to `currentTime`: the
fallback engine never reports buffered-ahead duration beyond the playback
position. -/
theorem claim_C10_mpv_progress_no_buffer_ahead (d : MpvProgressData) :
    (handleMpvProgress d).playableDuration = (handleMpvProgress d).currentTime ∧
    (handleMpvProgress d).currentTime = d.currentTime :=
  ⟨rfl, rfl⟩

end NuvioModel
